import Mathlib

/-!
Verification of the bounded same-domain website crawler `scrape_public_site`
from `sales_tool_creator.py` (lines 42–84), together with a shallow embedding
of the fragment of CPython 3.11 `urllib.parse` that the crawler calls
(`urlparse`, `urljoin` and their helpers).

URLs and all other strings are modelled as `List Char`.  The network and the
HTML processing done by `requests` + BeautifulSoup are abstracted into a
`Web` oracle: for each URL it either raises (`FetchOutcome.err`, modelling any
exception thrown inside the `try` block of the crawler) or returns a response
carrying the `ok` flag, the `Content-Type` header value, the extracted
visible text of the body and the list of `href` attributes of its anchors in
document order.

A `ValueError` escaping `urlparse`/`urljoin` (which in the crawler are called
OUTSIDE the `try` block, at lines 53 and 76–78) is modelled by `Option`:
`none` means the exception propagates out of `scrape_public_site`.
-/

set_option maxRecDepth 8000

abbrev Chars := List Char

/-- Lowercase a string character by character, modelling `str.lower()` on the
ASCII-only scheme tokens it is applied to. -/
def toLowerStr (s : Chars) : Chars := s.map Char.toLower

/-- The characters CPython accepts inside a URL scheme: `scheme_chars`
(ASCII letters, digits and `+`, `-`, `.`). -/
def isSchemeChar (c : Char) : Bool :=
  c.isAlpha || c.isDigit || c == '+' || c == '-' || c == '.'

/-- True for the WHATWG C0-control-or-space characters (codepoints 0–0x20),
the set stripped by `urlsplit`. -/
def isC0OrSpace (c : Char) : Bool := decide (c.toNat ≤ 0x20)

/-- Models `str.lstrip(_WHATWG_C0_CONTROL_OR_SPACE)`. -/
def lstripC0 (s : Chars) : Chars := s.dropWhile isC0OrSpace

/-- Models `str.strip(_WHATWG_C0_CONTROL_OR_SPACE)`. -/
def stripC0 (s : Chars) : Chars :=
  ((s.dropWhile isC0OrSpace).reverse.dropWhile isC0OrSpace).reverse

/-- Models the removal of `_UNSAFE_URL_BYTES_TO_REMOVE` (tab, CR, LF) done by
`urlsplit` via `url.replace(b, "")`. -/
def removeUnsafe (s : Chars) : Chars :=
  s.filter (fun c => !(c == '\t' || c == '\r' || c == '\n'))

/-- Split a string at the first occurrence of `c`: `some (before, after)`
when `c` occurs, `none` otherwise.  Models `s.find(c)` combined with
`s.split(c, 1)` and the `c in s` test. -/
def breakAtChar (c : Char) : Chars → Option (Chars × Chars)
  | [] => none
  | x :: xs =>
    if x = c then some ([], xs)
    else
      match breakAtChar c xs with
      | none => none
      | some (b, a) => some (x :: b, a)

/-- Split a string at the last occurrence of `c` (models `s.rfind(c)`):
`some (before, after)` with `c ∉ after` when `c` occurs. -/
def breakAtLastChar (c : Char) (s : Chars) : Option (Chars × Chars) :=
  match breakAtChar c s.reverse with
  | none => none
  | some (rpost, rpre) => some (rpre.reverse, rpost.reverse)

/-- Models `_splitnetloc(url, 2)` once the leading `//` has been removed:
split at the first of `/`, `?`, `#`. -/
def splitnetloc : Chars → Chars × Chars
  | [] => ([], [])
  | x :: xs =>
    if x = '/' ∨ x = '?' ∨ x = '#' then ([], x :: xs)
    else
      let (a, b) := splitnetloc xs
      (x :: a, b)

/-- Models Python `s.split(c)` (full split; `''.split(c) == ['']`). -/
def splitOnCh (c : Char) : Chars → List Chars
  | [] => [[]]
  | x :: xs =>
    if x = c then [] :: splitOnCh c xs
    else
      match splitOnCh c xs with
      | [] => [[x]]
      | y :: ys => (x :: y) :: ys

/-- Models Python `sep.join(parts)`. -/
def joinWith (sep : Chars) : List Chars → Chars
  | [] => []
  | [x] => x
  | x :: y :: ys => x ++ sep ++ joinWith sep (y :: ys)

/-- True when the first argument is an initial segment of the second. -/
def leadMatch : Chars → Chars → Bool
  | [], _ => true
  | _ :: _, [] => false
  | a :: as, b :: bs => a == b && leadMatch as bs

/-- Models the Python substring test `needle in hay`. -/
def containsSub (needle : Chars) : Chars → Bool
  | [] => needle.isEmpty
  | x :: xs => leadMatch needle (x :: xs) || containsSub needle xs

/-- Result of `urlsplit`: `<scheme>://<netloc>/<path>?<query>#<fragment>`. -/
structure SplitResult where
  scheme : Chars
  netloc : Chars
  path : Chars
  query : Chars
  fragment : Chars
  deriving DecidableEq

/-- Result of `urlparse`:
`<scheme>://<netloc>/<path>;<params>?<query>#<fragment>`. -/
structure ParseResult where
  scheme : Chars
  netloc : Chars
  path : Chars
  params : Chars
  query : Chars
  fragment : Chars
  deriving DecidableEq

/-- CPython `uses_relative` (3.11). -/
def uses_relative : List Chars :=
  (["", "ftp", "http", "gopher", "nntp", "imap", "wais", "file", "https",
    "shttp", "mms", "prospero", "rtsp", "rtsps", "rtspu", "sftp", "svn",
    "svn+ssh", "ws", "wss"].map String.toList)

/-- CPython `uses_netloc` (3.11). -/
def uses_netloc : List Chars :=
  (["", "ftp", "http", "gopher", "nntp", "telnet", "imap", "wais", "file",
    "mms", "https", "shttp", "snews", "prospero", "rtsp", "rtsps", "rtspu",
    "rsync", "svn", "svn+ssh", "sftp", "nfs", "git", "git+ssh", "ws",
    "wss"].map String.toList)

/-- CPython `uses_params` (3.11). -/
def uses_params : List Chars :=
  (["", "ftp", "hdl", "prospero", "http", "imap", "https", "shttp", "rtsp",
    "rtsps", "rtspu", "sip", "sips", "mms", "sftp", "tel"].map String.toList)

/-- The guard CPython puts on recognising a scheme prefix `url[:i]`:
`i > 0 and url[0].isascii() and url[0].isalpha()` followed by the
`scheme_chars` membership loop. -/
def schemeTokenOk (b : Chars) : Bool :=
  match b with
  | [] => false
  | c :: _ => c.isAlpha && b.all isSchemeChar

/-- Final phase of `urlsplit`: split off the fragment (at the first `#`),
then the query (at the first `?`), in that order. -/
def urlsplitFinish (scheme netloc rest : Chars) : SplitResult :=
  let (rest2, fragment) :=
    match breakAtChar '#' rest with
    | some (b, a) => (b, a)
    | none => (rest, [])
  let (path, query) :=
    match breakAtChar '?' rest2 with
    | some (b, a) => (b, a)
    | none => (rest2, [])
  ⟨scheme, netloc, path, query, fragment⟩

/-- The scheme-recognition phase of `urlsplit`: split at the first `:` and
accept the prefix as the scheme when `schemeTokenOk` holds, lowercasing it;
otherwise the default scheme `sch0` is kept and the URL is left whole. -/
def splitScheme (url1 sch0 : Chars) : Chars × Chars :=
  match breakAtChar ':' url1 with
  | some (b, a) => if schemeTokenOk b then (toLowerStr b, a) else (sch0, url1)
  | none => (sch0, url1)

/-- The phase of `urlsplit` after the scheme has been recognised: netloc
(with the mismatched-bracket `ValueError`, modelled as `none`), then
fragment and query. -/
def urlsplitRest (scheme rest1 : Chars) : Option SplitResult :=
  match rest1 with
  | '/' :: '/' :: r =>
    let (netloc, rest2) := splitnetloc r
    if ('[' ∈ netloc ∧ ']' ∉ netloc) ∨ (']' ∈ netloc ∧ '[' ∉ netloc) then none
    else some (urlsplitFinish scheme netloc rest2)
  | _ => some (urlsplitFinish scheme [] rest1)

/-- CPython 3.11 `urllib.parse.urlsplit`, specialised to
`allow_fragments=True` (the only form the crawler uses): WHATWG
sanitisation, scheme recognition, then netloc/fragment/query splitting.
`none` models the `ValueError("Invalid IPv6 URL")` raised on a netloc
containing `[` without `]` or vice versa.  Two library checks are modelled
as accepting: `_check_bracketed_host` (it validates the literal between
matched brackets; no URL in this development has a bracketed host) and
`_checknetloc` (it raises only for non-ASCII netlocs whose NFKC
normalisation introduces new delimiter characters). -/
def urlsplit (url0 scheme0 : Chars) : Option SplitResult :=
  let (scheme, rest1) :=
    splitScheme (removeUnsafe (lstripC0 url0)) (removeUnsafe (stripC0 scheme0))
  urlsplitRest scheme rest1

/-- CPython `_splitparams`.  At its single call site a `;` is guaranteed to
occur in `url`, so the branches in which no split point is found (Python
would compute `i = -1` there) simply return `(url, [])`. -/
def splitparams (url : Chars) : Chars × Chars :=
  match breakAtLastChar '/' url with
  | some (pre, post) =>
    (match breakAtChar ';' post with
     | some (p1, p2) => (pre ++ '/' :: p1, p2)
     | none => (url, []))
  | none =>
    match breakAtChar ';' url with
    | some (p1, p2) => (p1, p2)
    | none => (url, [])

/-- CPython 3.11 `urllib.parse.urlparse` (with `allow_fragments=True`):
`urlsplit` followed by the params split on the path. -/
def urlparse (url : Chars) (scheme0 : Chars) : Option ParseResult :=
  match urlsplit url scheme0 with
  | none => none
  | some s =>
    let (path, params) :=
      if s.scheme ∈ uses_params ∧ ';' ∈ s.path then splitparams s.path
      else (s.path, [])
    some ⟨s.scheme, s.netloc, path, params, s.query, s.fragment⟩

/-- CPython 3.11 `urllib.parse.urlunsplit`. -/
def urlunsplit (scheme netloc path query fragment : Chars) : Chars :=
  let u1 :=
    if netloc ≠ [] ∨ (scheme ≠ [] ∧ scheme ∈ uses_netloc ∧ path.take 2 ≠ ['/', '/']) then
      ['/', '/'] ++ netloc ++ (if path ≠ [] ∧ path.take 1 ≠ ['/'] then '/' :: path else path)
    else path
  let u2 := if scheme ≠ [] then scheme ++ ':' :: u1 else u1
  let u3 := if query ≠ [] then u2 ++ '?' :: query else u2
  if fragment ≠ [] then u3 ++ '#' :: fragment else u3

/-- CPython `urllib.parse.urlunparse`. -/
def urlunparse (p : ParseResult) : Chars :=
  let path := if p.params ≠ [] then p.path ++ ';' :: p.params else p.path
  urlunsplit p.scheme p.netloc path p.query p.fragment

/-- The segment filter `segments[1:-1] = filter(None, segments[1:-1])` of
`urljoin`: drop empty segments, but keep the last element unconditionally. -/
def dropEmptyKeepLast : List Chars → List Chars
  | [] => []
  | [x] => [x]
  | x :: y :: ys =>
    if x = [] then dropEmptyKeepLast (y :: ys) else x :: dropEmptyKeepLast (y :: ys)

/-- Apply `dropEmptyKeepLast` to all but the first element, modelling the
slice assignment on `segments[1:-1]` (the first element is also kept
unconditionally). -/
def filterSegments : List Chars → List Chars
  | [] => []
  | x :: xs => x :: dropEmptyKeepLast xs

/-- The `..`/`.` resolution loop of `urljoin` over the path segments;
`resolved_path.pop()` on an empty accumulator is ignored. -/
def resolveSegs (acc : List Chars) : List Chars → List Chars
  | [] => acc
  | seg :: rest =>
    if seg = ['.', '.'] then resolveSegs acc.dropLast rest
    else if seg = ['.'] then resolveSegs acc rest
    else resolveSegs (acc ++ [seg]) rest

/-- CPython 3.11 `urllib.parse.urljoin` (with `allow_fragments=True`).
`none` models a `ValueError` propagating from the two internal `urlparse`
calls. -/
def urljoin (base url : Chars) : Option Chars :=
  if base = [] then some url
  else if url = [] then some base
  else
    match urlparse base [] with
    | none => none
    | some b =>
      match urlparse url b.scheme with
      | none => none
      | some r =>
        if r.scheme ≠ b.scheme ∨ r.scheme ∉ uses_relative then some url
        else if r.scheme ∈ uses_netloc ∧ r.netloc ≠ [] then
          some (urlunparse ⟨r.scheme, r.netloc, r.path, r.params, r.query, r.fragment⟩)
        else
          let netloc := if r.scheme ∈ uses_netloc then b.netloc else r.netloc
          if r.path = [] ∧ r.params = [] then
            let query := if r.query = [] then b.query else r.query
            some (urlunparse ⟨r.scheme, netloc, b.path, b.params, query, r.fragment⟩)
          else
            let baseParts0 := splitOnCh '/' b.path
            let baseParts :=
              if baseParts0.getLast? ≠ some [] then baseParts0.dropLast else baseParts0
            let segments :=
              if r.path.take 1 = ['/'] then splitOnCh '/' r.path
              else filterSegments (baseParts ++ splitOnCh '/' r.path)
            let resolved0 := resolveSegs [] segments
            let resolved :=
              if segments.getLast? = some ['.'] ∨ segments.getLast? = some ['.', '.'] then
                resolved0 ++ [[]]
              else resolved0
            let rpath :=
              if joinWith ['/'] resolved = [] then ['/'] else joinWith ['/'] resolved
            some (urlunparse ⟨r.scheme, netloc, rpath, r.params, r.query, r.fragment⟩)

/-- Outcome of one `requests.get(url, timeout=6)` call together with the
BeautifulSoup processing of its body.  `err` models any exception raised by
the call (transport error, DNS failure, or a request that cannot be
constructed, e.g. a missing scheme); `resp ok contentType text hrefs` models
a returned response: `ok` is `r.ok`, `contentType` the value of
`r.headers.get("Content-Type", "")`, `text` the visible text extracted from
the body (scripts, styles and noscript removed, stripped strings joined by
single spaces), and `hrefs` the `href` attributes of the body's anchors in
document order. -/
inductive FetchOutcome where
  | err : FetchOutcome
  | resp (ok : Bool) (contentType : Chars) (text : Chars) (hrefs : List Chars) : FetchOutcome

/-- The external world: what fetching each URL yields. -/
def Web := Chars → FetchOutcome

/-- Lines 62–67 of the crawler: attempt the fetch inside `try`; the attempt
fails (the loop `continue`s) when the call raises, when `not r.ok`, or when
`"text/html"` is not a substring of the Content-Type header. -/
def fetchHtml (web : Web) (url : Chars) : Option (Chars × List Chars) :=
  match web url with
  | .err => none
  | .resp ok ct text hrefs =>
    if ok && containsSub ("text/html".toList) ct then some (text, hrefs) else none

/-- The crawler state.  `seen` is the Python set `seen` (kept as a
duplicate-free list in insertion order, so `seen.length` is `len(seen)`),
`to_visit` and `texts` are the Python lists of the same names.  `fetched`
and `inserted` are ghost instrumentation used only by the theorems:
`fetched` records every URL passed to `requests.get`, in call order, and
`inserted` records every URL ever appended to the frontier (the root first),
in insertion order. -/
structure CrawlState where
  seen : List Chars
  to_visit : List Chars
  texts : List Chars
  fetched : List Chars
  inserted : List Chars
  deriving DecidableEq

/-- Lines 75–82 of the crawler: resolve each href of the fetched page
against the page URL, and append the link to the frontier when its netloc
equals `domain` and it is in neither `seen` nor the current frontier.
`none` models a `ValueError` from `urljoin` or `urlparse` — both are called
outside the `try` block, so the exception aborts the whole crawl. -/
def resolveLinks (domain pageUrl : Chars) (seen : List Chars) :
    List Chars → List Chars → Option (List Chars)
  | [], tv => some tv
  | href :: rest, tv =>
    match urljoin pageUrl href with
    | none => none
    | some link =>
      match urlparse link [] with
      | none => none
      | some p =>
        if p.netloc = domain ∧ link ∉ seen ∧ link ∉ tv then
          resolveLinks domain pageUrl seen rest (tv ++ [link])
        else resolveLinks domain pageUrl seen rest tv

/-- One iteration of the `while` loop (lines 58–82): pop the front of
`to_visit`; skip if already seen; otherwise mark seen (line 61, before the
fetch), attempt the fetch, and on success append the page text and the
eligible links.  The `to_visit = []` case never arises under the loop
guard; it returns the state unchanged. -/
def step (web : Web) (domain : Chars) (s : CrawlState) : Option CrawlState :=
  match s.to_visit with
  | [] => some s
  | url :: rest =>
    if url ∈ s.seen then some { s with to_visit := rest }
    else
      match fetchHtml web url with
      | none =>
        some { seen := s.seen ++ [url], to_visit := rest, texts := s.texts,
               fetched := s.fetched ++ [url], inserted := s.inserted }
      | some (text, hrefs) =>
        match resolveLinks domain url (s.seen ++ [url]) hrefs rest with
        | none => none
        | some tv =>
          some { seen := s.seen ++ [url], to_visit := tv, texts := s.texts ++ [text],
                 fetched := s.fetched ++ [url],
                 inserted := s.inserted ++ tv.drop rest.length }

/-- The loop guard of line 57: `while to_visit and len(seen) < max_pages`. -/
def crawlGuard (maxPages : Nat) (s : CrawlState) : Prop :=
  s.to_visit ≠ [] ∧ s.seen.length < maxPages

instance (maxPages : Nat) (s : CrawlState) : Decidable (crawlGuard maxPages s) :=
  inferInstanceAs (Decidable (_ ∧ _))

/-- The crawl loop run for at most `n` iterations (a structurally recursive
approximation of `crawlLoop`, used to reason about every intermediate state
of the loop).  `none` means an exception aborted the crawl. -/
def crawlN (web : Web) (domain : Chars) (maxPages : Nat) : Nat → CrawlState → Option CrawlState
  | 0, s => some s
  | n + 1, s =>
    if crawlGuard maxPages s then
      match step web domain s with
      | none => none
      | some s' => crawlN web domain maxPages n s'
    else some s

/-- The `while` loop of lines 57–82, run to completion. -/
def crawlLoop (web : Web) (domain : Chars) (maxPages : Nat) (s : CrawlState) :
    Option CrawlState :=
  if h : crawlGuard maxPages s then
    match hs : step web domain s with
    | none => none
    | some s' => crawlLoop web domain maxPages s'
  else some s
termination_by (maxPages - s.seen.length, s.to_visit.length)
decreasing_by
  have hlt : s.seen.length < maxPages := h.2
  rw [step] at hs
  split at hs
  next heq => exact absurd heq h.1
  next url rest heq =>
    split at hs
    next =>
      cases hs
      apply Prod.Lex.right
      simp [heq]
    next =>
      have hlen : s'.seen.length = s.seen.length + 1 := by
        split at hs
        · cases hs; simp
        · split at hs
          · cases hs
          · cases hs; simp
      apply Prod.Lex.left
      omega

/-- The initial state of line 54: `seen, to_visit = set(), [root_url]`. -/
def initState (root : Chars) : CrawlState :=
  { seen := [], to_visit := [root], texts := [], fetched := [], inserted := [root] }

/-- Lines 53–82: parse the root URL (a `ValueError` here, line 53, aborts
before the loop starts) and run the loop with `domain` set to the root's
netloc. -/
def crawlFinal (web : Web) (root : Chars) (maxPages : Nat) : Option CrawlState :=
  match urlparse root [] with
  | none => none
  | some p => crawlLoop web p.netloc maxPages (initState root)

/-- `MAX_SITE_PAGES = 10` (line 42). -/
def MAX_SITE_PAGES : Nat := 10

/-- `MAX_SITE_CHARS = 5000` (line 43). -/
def MAX_SITE_CHARS : Nat := 5000

/-- Line 84: `" \n".join(texts)[:MAX_SITE_CHARS]`. -/
def corpusOf (s : CrawlState) : Chars :=
  (joinWith [' ', '\n'] s.texts).take MAX_SITE_CHARS

/-- `scrape_public_site(root_url, max_pages)` (lines 50–84).  The result is
`none` when an uncaught exception escapes, `some corpus` otherwise. -/
def scrape_public_site (web : Web) (root : Chars) (maxPages : Nat) : Option Chars :=
  (crawlFinal web root maxPages).map corpusOf

/-- The invariant maintained by the crawl loop, relative to the crawl
`domain` and page budget.  It packages everything claims C1–C3, C8 and C10
assert about reachable states. -/
def GoodState (domain : Chars) (maxPages : Nat) (s : CrawlState) : Prop :=
  s.fetched = s.seen ∧
  s.seen.length ≤ maxPages ∧
  s.seen.Nodup ∧
  s.to_visit.Nodup ∧
  (∀ u, u ∈ s.to_visit → u ∉ s.seen) ∧
  (∀ u, u ∈ s.seen ∨ u ∈ s.to_visit → ∃ p, urlparse u [] = some p ∧ p.netloc = domain) ∧
  s.inserted = s.fetched ++ s.to_visit

/-- A finished run: either the crawl aborted with an exception, or the loop
guard no longer holds. -/
def crawlDone (maxPages : Nat) : Option CrawlState → Prop
  | none => True
  | some s => ¬ crawlGuard maxPages s

instance (maxPages : Nat) : (o : Option CrawlState) → Decidable (crawlDone maxPages o)
  | none => .isTrue trivial
  | some _ => inferInstanceAs (Decidable (¬ _))

/-- Example root URL used by the witnesses. -/
def rootU : Chars := "https://example.com/".toList

/-- Link to the about page, as resolved from the href `/about`. -/
def aboutU : Chars := "https://example.com/about".toList

/-- Link resolved from the fragment-only href `#top` on the root page. -/
def fragU : Chars := "https://example.com/#top".toList

/-- A typical HTML Content-Type header value. -/
def htmlCT : Chars := "text/html; charset=utf-8".toList

/-- Example web used by most witnesses: the root page links to `/about`
(same host), `#top` (fragment-only) and an external host; the about page has
no links; the `#top` URL errors when fetched; everything else errors. -/
def exWeb : Web := fun u =>
  if u = rootU then
    .resp true htmlCT ("Home text".toList)
      ["/about".toList, "#top".toList, "https://external.com/x".toList]
  else if u = aboutU then .resp true htmlCT ("About text".toList) []
  else .err

/-- Web whose root page carries a malformed href with a mismatched IPv6
bracket: resolving it makes `urljoin` raise `ValueError`, which the crawler
does not catch. -/
def badHrefWeb : Web := fun u =>
  if u = rootU then .resp true htmlCT ("Home".toList) ["//[bad".toList] else .err

/-- A root URL rejected by `urlparse` itself (mismatched IPv6 bracket). -/
def badRoot : Chars := "https://[oops/".toList

/-- A root URL from which no HTTP request can be constructed (no scheme):
`urlparse` accepts it, but `requests.get` raises `MissingSchema`. -/
def noSchemeRoot : Chars := "not a url".toList

/-- A web on which every fetch attempt raises. -/
def allErrWeb : Web := fun _ => .err

/-- Strings free of WHATWG C0-control-or-space characters (every codepoint
above 0x20); such strings pass unchanged through the sanitisation phase of
`urlsplit`. -/
def noControl (s : Chars) : Prop := ∀ c ∈ s, 0x20 < c.toNat

instance (s : Chars) : Decidable (noControl s) :=
  inferInstanceAs (Decidable (∀ c ∈ s, 0x20 < c.toNat))

/-! Helper lemmas about single steps of the loop. -/

/-- Unfolding of `step` when the popped URL was already seen (the defensive
skip branch of lines 59–60). -/
theorem step_skip (web : Web) (domain : Chars) (s : CrawlState) (url : Chars)
    (rest : List Chars) (hv : s.to_visit = url :: rest) (hmem : url ∈ s.seen) :
    step web domain s = some { s with to_visit := rest } := by
  rw [step, hv]
  simp [hmem]

/-- Unfolding of `step` when the popped URL is new and the fetch attempt
fails (lines 61–67): the URL is marked seen and recorded as fetched, no text
and no links are added. -/
theorem step_fail (web : Web) (domain : Chars) (s : CrawlState) (url : Chars)
    (rest : List Chars) (hv : s.to_visit = url :: rest) (hmem : url ∉ s.seen)
    (hf : fetchHtml web url = none) :
    step web domain s =
      some { seen := s.seen ++ [url], to_visit := rest, texts := s.texts,
             fetched := s.fetched ++ [url], inserted := s.inserted } := by
  rw [step, hv]
  simp [hmem, hf]

/-- Unfolding of `step` when the popped URL is new and the fetch succeeds
(lines 61–82). -/
theorem step_succ (web : Web) (domain : Chars) (s : CrawlState) (url : Chars)
    (rest : List Chars) (text : Chars) (hrefs : List Chars)
    (hv : s.to_visit = url :: rest) (hmem : url ∉ s.seen)
    (hf : fetchHtml web url = some (text, hrefs)) :
    step web domain s =
      (resolveLinks domain url (s.seen ++ [url]) hrefs rest).map (fun tv =>
        { seen := s.seen ++ [url], to_visit := tv, texts := s.texts ++ [text],
          fetched := s.fetched ++ [url],
          inserted := s.inserted ++ tv.drop rest.length }) := by
  rw [step, hv]
  rcases hr : resolveLinks domain url (s.seen ++ [url]) hrefs rest with _ | tv <;>
    simp [hmem, hf, hr]

/-- What `resolveLinks` guarantees about the frontier it returns: the old
frontier is a prefix; every element is either old, or is an in-scope
resolved link of the page that is not in `seen`; and freedom from
duplicates is preserved. -/
theorem resolveLinks_spec (domain pageUrl : Chars) (seen : List Chars) :
    ∀ (hrefs : List Chars) (tv tv' : List Chars),
      resolveLinks domain pageUrl seen hrefs tv = some tv' →
      (∃ app, tv' = tv ++ app) ∧
      (∀ l, l ∈ tv' → l ∈ tv ∨
        ((∃ p, urlparse l [] = some p ∧ p.netloc = domain) ∧ l ∉ seen ∧
          ∃ h, h ∈ hrefs ∧ urljoin pageUrl h = some l)) ∧
      (tv.Nodup → tv'.Nodup) := by
  intro hrefs
  induction hrefs with
  | nil =>
    intro tv tv' h
    rw [resolveLinks] at h
    cases h
    exact ⟨⟨[], by simp⟩, fun l hl => Or.inl hl, id⟩
  | cons href rest ih =>
    intro tv tv' h
    rw [resolveLinks] at h
    rcases hj : urljoin pageUrl href with _ | link
    · simp only [hj] at h; cases h
    · simp only [hj] at h
      rcases hp : urlparse link [] with _ | p
      · simp only [hp] at h; cases h
      · simp only [hp] at h
        by_cases hcond : p.netloc = domain ∧ link ∉ seen ∧ link ∉ tv
        · rw [if_pos hcond] at h
          obtain ⟨⟨app, happ⟩, hmem, hnd⟩ := ih (tv ++ [link]) tv' h
          refine ⟨⟨link :: app, by rw [happ]; simp⟩, ?_, ?_⟩
          · intro l hl
            rcases hmem l hl with hold | hnew
            · rcases List.mem_append.mp hold with h1 | h1
              · exact Or.inl h1
              · have : l = link := by simpa using h1
                subst this
                exact Or.inr ⟨⟨p, hp, hcond.1⟩, hcond.2.1,
                  href, List.mem_cons_self _ _, hj⟩
            · obtain ⟨hpp, hns, hh, hhm, hhj⟩ := hnew
              exact Or.inr ⟨hpp, hns, hh, List.mem_cons_of_mem _ hhm, hhj⟩
          · intro hnodup
            apply hnd
            rw [List.nodup_append]
            refine ⟨hnodup, List.nodup_singleton _, ?_⟩
            intro a ha hb
            rw [List.mem_singleton] at hb
            subst hb
            exact hcond.2.2 ha
        · rw [if_neg hcond] at h
          obtain ⟨⟨app, happ⟩, hmem, hnd⟩ := ih tv tv' h
          refine ⟨⟨app, happ⟩, ?_, hnd⟩
          intro l hl
          rcases hmem l hl with hold | ⟨hpp, hns, hh, hhm, hhj⟩
          · exact Or.inl hold
          · exact Or.inr ⟨hpp, hns, hh, List.mem_cons_of_mem _ hhm, hhj⟩

/-- One loop iteration preserves the crawl invariant. -/
theorem step_good (web : Web) (domain : Chars) (maxPages : Nat) (s s' : CrawlState)
    (hguard : crawlGuard maxPages s) (hgood : GoodState domain maxPages s)
    (hs : step web domain s = some s') : GoodState domain maxPages s' := by
  obtain ⟨hfs, hlen, hnds, hndt, hdisj, hnet, hins⟩ := hgood
  rcases hv : s.to_visit with _ | ⟨url, rest⟩
  · exact absurd hv hguard.1
  have hmem : url ∉ s.seen := hdisj url (by rw [hv]; exact List.mem_cons_self _ _)
  have hheadnotrest : url ∉ rest := (List.nodup_cons.mp (hv ▸ hndt)).1
  have hrestnd : rest.Nodup := (List.nodup_cons.mp (hv ▸ hndt)).2
  have hseen' : (s.seen ++ [url]).Nodup := by
    rw [List.nodup_append]
    refine ⟨hnds, List.nodup_singleton _, ?_⟩
    intro a ha hb
    rw [List.mem_singleton] at hb
    subst hb
    exact hmem ha
  have hlt : s.seen.length < maxPages := hguard.2
  have hlen' : (s.seen ++ [url]).length ≤ maxPages := by
    simp only [List.length_append, List.length_singleton]
    omega
  have hrestdisj : ∀ u, u ∈ rest → u ∉ s.seen ++ [url] := by
    intro u hu hc
    rcases List.mem_append.mp hc with hc | hc
    · exact hdisj u (by rw [hv]; exact List.mem_cons_of_mem _ hu) hc
    · rw [List.mem_singleton] at hc
      subst hc
      exact hheadnotrest hu
  have hnet' : ∀ u, u ∈ s.seen ++ [url] → ∃ p, urlparse u [] = some p ∧ p.netloc = domain := by
    intro u hu
    rcases List.mem_append.mp hu with hc | hc
    · exact hnet u (Or.inl hc)
    · rw [List.mem_singleton] at hc
      subst hc
      exact hnet u (Or.inr (by rw [hv]; exact List.mem_cons_self _ _))
  rcases hf : fetchHtml web url with _ | ⟨text, hrefs⟩
  · rw [step_fail web domain s url rest hv hmem hf] at hs
    cases hs
    refine ⟨by rw [hfs], hlen', hseen', hrestnd, hrestdisj, ?_, ?_⟩
    · intro u hu
      rcases hu with hu | hu
      · exact hnet' u hu
      · exact hnet u (Or.inr (by rw [hv]; exact List.mem_cons_of_mem _ hu))
    · simp only
      rw [hins, hv, hfs]
      simp
  · rw [step_succ web domain s url rest text hrefs hv hmem hf] at hs
    rcases hr : resolveLinks domain url (s.seen ++ [url]) hrefs rest with _ | tv
    · rw [hr] at hs; cases hs
    · rw [hr] at hs
      simp only [Option.map_some'] at hs
      cases hs
      obtain ⟨⟨app, happ⟩, hmemspec, hndspec⟩ :=
        resolveLinks_spec domain url (s.seen ++ [url]) hrefs rest tv hr
      refine ⟨by simp only; rw [hfs], hlen', hseen', hndspec hrestnd, ?_, ?_, ?_⟩
      · intro u hu
        rcases hmemspec u hu with hold | ⟨_, hns, _⟩
        · exact hrestdisj u hold
        · exact hns
      · intro u hu
        rcases hu with hu | hu
        · exact hnet' u hu
        · rcases hmemspec u hu with hold | ⟨hpp, _, _⟩
          · exact hnet u (Or.inr (by rw [hv]; exact List.mem_cons_of_mem _ hold))
          · exact hpp
      · simp only
        rw [happ, List.drop_left, hins, hv, hfs]
        simp

/-- The invariant holds in the initial state, with the crawl domain taken
from the parsed root URL (line 53). -/
theorem initState_good (root : Chars) (maxPages : Nat) (p : ParseResult)
    (hp : urlparse root [] = some p) :
    GoodState p.netloc maxPages (initState root) := by
  refine ⟨rfl, by simp [initState], by simp [initState], by simp [initState], ?_, ?_, rfl⟩
  · intro u hu
    simp [initState]
  · intro u hu
    rcases hu with hu | hu
    · simp [initState] at hu
    · simp only [initState, List.mem_singleton] at hu
      subst hu
      exact ⟨p, hp, rfl⟩

/-- Every state the bounded iteration reaches from a good state is good. -/
theorem crawlN_good (web : Web) (domain : Chars) (maxPages : Nat) :
    ∀ (n : Nat) (s s' : CrawlState), GoodState domain maxPages s →
      crawlN web domain maxPages n s = some s' → GoodState domain maxPages s' := by
  intro n
  induction n with
  | zero =>
    intro s s' hg h
    rw [crawlN] at h
    cases h
    exact hg
  | succ n ih =>
    intro s s' hg h
    rw [crawlN] at h
    by_cases hguard : crawlGuard maxPages s
    · rw [if_pos hguard] at h
      rcases hs : step web domain s with _ | s₁
      · simp only [hs] at h; cases h
      · simp only [hs] at h
        exact ih s₁ s' (step_good web domain maxPages s s₁ hguard hg hs) h
    · rw [if_neg hguard] at h
      cases h
      exact hg

/-- Case analysis of a successful step, for the termination argument:
either the state was popped from the skip branch (same `seen`, shorter
frontier) or a new URL entered `seen`. -/
theorem step_cases (web : Web) (domain : Chars) (s s' : CrawlState)
    (hne : s.to_visit ≠ []) (hs : step web domain s = some s') :
    (s'.seen = s.seen ∧ s'.to_visit.length + 1 = s.to_visit.length) ∨
    s'.seen.length = s.seen.length + 1 := by
  rcases hv : s.to_visit with _ | ⟨url, rest⟩
  · exact absurd hv hne
  by_cases hmem : url ∈ s.seen
  · rw [step_skip web domain s url rest hv hmem] at hs
    cases hs
    exact Or.inl ⟨rfl, by simp [hv]⟩
  · rcases hf : fetchHtml web url with _ | ⟨text, hrefs⟩
    · rw [step_fail web domain s url rest hv hmem hf] at hs
      cases hs
      exact Or.inr (by simp)
    · rw [step_succ web domain s url rest text hrefs hv hmem hf] at hs
      rcases hr : resolveLinks domain url (s.seen ++ [url]) hrefs rest with _ | tv
      · rw [hr] at hs; cases hs
      · rw [hr] at hs
        simp only [Option.map_some'] at hs
        cases hs
        exact Or.inr (by simp)

/-- One guarded unfolding of `crawlN`. -/
theorem crawlN_succ_of_guard (web : Web) (domain : Chars) (maxPages n : Nat)
    (s : CrawlState) (hguard : crawlGuard maxPages s) :
    crawlN web domain maxPages (n + 1) s =
      match step web domain s with
      | none => none
      | some s' => crawlN web domain maxPages n s' := by
  rw [crawlN, if_pos hguard]

/-- The crawl loop always reaches a finished configuration: strong induction
on the lexicographic measure (remaining page budget, frontier length). -/
theorem crawl_reaches_done (web : Web) (domain : Chars) (maxPages : Nat) :
    ∀ (a b : Nat) (s : CrawlState), maxPages - s.seen.length ≤ a →
      s.to_visit.length ≤ b →
      ∃ n, crawlDone maxPages (crawlN web domain maxPages n s) := by
  intro a
  induction a with
  | zero =>
    intro b s ha _
    refine ⟨0, ?_⟩
    rw [crawlN]
    intro hguard
    have := hguard.2
    omega
  | succ a iha =>
    intro b
    induction b with
    | zero =>
      intro s _ hb
      refine ⟨0, ?_⟩
      rw [crawlN]
      intro hguard
      exact hguard.1 (List.length_eq_zero.mp (Nat.le_zero.mp hb))
    | succ b ihb =>
      intro s ha hb
      by_cases hguard : crawlGuard maxPages s
      · rcases hs : step web domain s with _ | s₁
        · refine ⟨1, ?_⟩
          rw [crawlN_succ_of_guard web domain maxPages 0 s hguard]
          simp only [hs]
          trivial
        · rcases step_cases web domain s s₁ hguard.1 hs with ⟨hseen, hlen⟩ | hlen
          · obtain ⟨n, hn⟩ := ihb s₁ (by rw [hseen]; exact ha) (by omega)
            refine ⟨n + 1, ?_⟩
            rw [crawlN_succ_of_guard web domain maxPages n s hguard]
            simp only [hs]
            exact hn
          · have hlt : s.seen.length < maxPages := hguard.2
            obtain ⟨n, hn⟩ := iha s₁.to_visit.length s₁ (by omega) (le_refl _)
            refine ⟨n + 1, ?_⟩
            rw [crawlN_succ_of_guard web domain maxPages n s hguard]
            simp only [hs]
            exact hn
      · refine ⟨0, ?_⟩
        rw [crawlN]
        exact hguard

/-- For every state there is a bounded iteration count after which the crawl
is finished. -/
theorem crawl_reaches_done' (web : Web) (domain : Chars) (maxPages : Nat)
    (s : CrawlState) : ∃ n, crawlDone maxPages (crawlN web domain maxPages n s) :=
  crawl_reaches_done web domain maxPages (maxPages - s.seen.length)
    s.to_visit.length s (le_refl _) (le_refl _)

/-- The unbounded loop agrees with any finished bounded iteration. -/
theorem crawlLoop_eq_crawlN (web : Web) (domain : Chars) (maxPages : Nat) :
    ∀ (n : Nat) (s : CrawlState), crawlDone maxPages (crawlN web domain maxPages n s) →
      crawlLoop web domain maxPages s = crawlN web domain maxPages n s := by
  intro n
  induction n with
  | zero =>
    intro s h
    rw [crawlN] at h ⊢
    rw [crawlLoop, dif_neg h]
  | succ n ih =>
    intro s h
    by_cases hguard : crawlGuard maxPages s
    · rw [crawlN_succ_of_guard web domain maxPages n s hguard] at h ⊢
      rw [crawlLoop, dif_pos hguard]
      rcases hs : step web domain s with _ | s₁
      · simp only [hs] at h ⊢
      · simp only [hs] at h ⊢
        exact ih s₁ h
    · rw [crawlN, if_neg hguard] at h ⊢
      rw [crawlLoop, dif_neg hguard]

/-! Lemmas about the sanitisation phase of `urlsplit` on clean strings, and
the behaviour of `urljoin` on fragment-only references. -/

/-- Sanitised strings are untouched by the tab/CR/LF removal. -/
theorem removeUnsafe_noControl (s : Chars) (h : noControl s) : removeUnsafe s = s := by
  rw [removeUnsafe, List.filter_eq_self]
  intro a ha
  have hc : 0x20 < a.toNat := h a ha
  have h1 : (a == '\t') = false := by
    cases hb : a == '\t'
    · rfl
    · exact absurd hc (by rw [eq_of_beq hb]; decide)
  have h2 : (a == '\r') = false := by
    cases hb : a == '\r'
    · rfl
    · exact absurd hc (by rw [eq_of_beq hb]; decide)
  have h3 : (a == '\n') = false := by
    cases hb : a == '\n'
    · rfl
    · exact absurd hc (by rw [eq_of_beq hb]; decide)
  rw [h1, h2, h3]
  rfl

/-- Sanitised strings are untouched by `dropWhile isC0OrSpace`. -/
theorem dropWhileC0_noControl : ∀ (s : Chars), noControl s →
    s.dropWhile isC0OrSpace = s := by
  intro s h
  cases s with
  | nil => rfl
  | cons c cs =>
    have hc : 0x20 < c.toNat := h c (List.mem_cons_self _ _)
    have : isC0OrSpace c = false := by
      rw [isC0OrSpace]
      exact decide_eq_false (by omega)
    rw [List.dropWhile_cons, this]
    simp

/-- Sanitised strings are untouched by `lstripC0`. -/
theorem lstripC0_noControl (s : Chars) (h : noControl s) : lstripC0 s = s :=
  dropWhileC0_noControl s h

/-- Sanitised strings are untouched by `stripC0`. -/
theorem stripC0_noControl (s : Chars) (h : noControl s) : stripC0 s = s := by
  have hrev : noControl s.reverse := fun c hc => h c (List.mem_reverse.mp hc)
  rw [stripC0, dropWhileC0_noControl s h, dropWhileC0_noControl s.reverse hrev,
    List.reverse_reverse]

/-- Every scheme in `uses_relative` is a clean token. -/
theorem usesRelative_noControl : ∀ s ∈ uses_relative, noControl s := by decide

/-- The string `'#' :: frag` is clean whenever `frag` is. -/
theorem noControl_hash (frag : Chars) (hf : noControl frag) :
    noControl ('#' :: frag) := by
  intro c hc
  rcases List.mem_cons.mp hc with rfl | hc
  · decide
  · exact hf c hc

/-- Scheme recognition on a fragment-only reference never finds a scheme:
the default is kept and the input is left whole. -/
theorem splitScheme_hash (d frag : Chars) : splitScheme ('#' :: frag) d = (d, '#' :: frag) := by
  rw [splitScheme, breakAtChar, if_neg (by decide : ¬('#' = ':'))]
  rcases breakAtChar ':' frag with _ | ⟨b, a⟩
  · rfl
  · have hno : schemeTokenOk ('#' :: b) = false := by
      simp [schemeTokenOk, show ('#').isAlpha = false from rfl]
    simp [hno]

/-- `breakAtChar` at a leading occurrence. -/
theorem breakAtChar_head (c : Char) (rest : Chars) :
    breakAtChar c (c :: rest) = some ([], rest) := by
  rw [breakAtChar, if_pos rfl]

/-- The final `urlsplit` phase on a fragment-only remainder. -/
theorem urlsplitFinish_hash (d frag : Chars) :
    urlsplitFinish d [] ('#' :: frag) = ⟨d, [], [], [], frag⟩ := by
  rw [urlsplitFinish, breakAtChar_head]
  rfl

/-- `urlsplit` on a fragment-only reference: the whole input after `#`
becomes the fragment and the scheme stays at its default. -/
theorem urlsplit_hash (d frag : Chars) (hd : noControl d) (hf : noControl frag) :
    urlsplit ('#' :: frag) d = some ⟨d, [], [], [], frag⟩ := by
  have hhf : noControl ('#' :: frag) := noControl_hash frag hf
  rw [urlsplit, lstripC0_noControl _ hhf, removeUnsafe_noControl _ hhf,
    stripC0_noControl _ hd, removeUnsafe_noControl _ hd, splitScheme_hash]
  show urlsplitRest d ('#' :: frag) = _
  rw [urlsplitRest]
  · rw [urlsplitFinish_hash]
  · intro r h
    exact absurd (List.cons.inj h).1 (by decide)

/-- `urlparse` on a fragment-only reference. -/
theorem urlparse_hash (d frag : Chars) (hd : noControl d) (hf : noControl frag) :
    urlparse ('#' :: frag) d = some ⟨d, [], [], [], [], frag⟩ := by
  rw [urlparse]
  simp only [urlsplit_hash d frag hd hf]
  simp

/-- A non-empty fragment is appended by `urlunsplit` after everything else:
the serialisation is the fragment-free one followed by `#` and the
fragment. -/
theorem urlunsplit_frag_append (sc n p q frag : Chars) (h : frag ≠ []) :
    urlunsplit sc n p q frag = urlunsplit sc n p q [] ++ '#' :: frag := by
  rw [urlunsplit, urlunsplit]
  simp [h]

/-- The `urlunparse` version of `urlunsplit_frag_append`. -/
theorem urlunparse_frag_append (sc n p par q frag : Chars) (h : frag ≠ []) :
    urlunparse ⟨sc, n, p, par, q, frag⟩ =
      urlunparse ⟨sc, n, p, par, q, []⟩ ++ '#' :: frag := by
  rw [urlunparse, urlunparse]
  exact urlunsplit_frag_append _ _ _ _ _ h

/-- `urljoin` on a fragment-only reference (CPython): the result is the
base's fragment-free re-serialisation with the new fragment appended —
not the base string itself. -/
theorem urljoin_hash (u frag : Chars) (b : ParseResult)
    (hb : urlparse u [] = some b) (hrel : b.scheme ∈ uses_relative)
    (hnet : b.scheme ∈ uses_netloc) (hf : noControl frag) (hfrag : frag ≠ []) :
    urljoin u ('#' :: frag) =
      some (urlunparse ⟨b.scheme, b.netloc, b.path, b.params, b.query, []⟩ ++ '#' :: frag) := by
  have hd : noControl b.scheme := usesRelative_noControl b.scheme hrel
  by_cases hu : u = []
  · subst hu
    have hb' : b = ⟨[], [], [], [], [], []⟩ := by
      have hnil : urlparse ([] : Chars) [] = some ⟨[], [], [], [], [], []⟩ := by decide
      rw [hnil] at hb
      exact (Option.some.inj hb).symm
    subst hb'
    rw [urljoin, if_pos rfl]
    have : urlunparse ⟨[], [], [], [], [], []⟩ = ([] : Chars) := by decide
    rw [this]
    simp
  · rw [urljoin, if_neg hu, if_neg (by simp : ¬('#' :: frag = ([] : Chars)))]
    simp only [hb, urlparse_hash b.scheme frag hd hf]
    rw [if_neg (by simp [hrel])]
    rw [if_neg (by simp)]
    rw [if_pos (by simp)]
    simp only [if_pos hnet, if_pos rfl]
    exact congrArg some (urlunparse_frag_append _ _ _ _ _ _ hfrag)

/-- Evaluate `crawlFinal` through any finished bounded iteration. -/
theorem crawlFinal_eq_crawlN (web : Web) (root : Chars) (maxPages : Nat)
    (p : ParseResult) (n : Nat) (hp : urlparse root [] = some p)
    (hdone : crawlDone maxPages (crawlN web p.netloc maxPages n (initState root))) :
    crawlFinal web root maxPages = crawlN web p.netloc maxPages n (initState root) := by
  rw [crawlFinal]
  simp only [hp]
  exact crawlLoop_eq_crawlN web p.netloc maxPages n (initState root) hdone

/-- Every state returned by a complete crawl satisfies the invariant. -/
theorem crawlFinal_good (web : Web) (root : Chars) (maxPages : Nat)
    (p : ParseResult) (s : CrawlState) (hp : urlparse root [] = some p)
    (hs : crawlFinal web root maxPages = some s) : GoodState p.netloc maxPages s := by
  obtain ⟨n, hdone⟩ := crawl_reaches_done' web p.netloc maxPages (initState root)
  rw [crawlFinal_eq_crawlN web root maxPages p n hp hdone] at hs
  exact crawlN_good web p.netloc maxPages n (initState root) s
    (initState_good root maxPages p hp) hs

/-- With a zero page budget the loop never runs. -/
theorem crawlFinal_zero (web : Web) (root : Chars) (p : ParseResult)
    (hp : urlparse root [] = some p) :
    crawlFinal web root 0 = some (initState root) := by
  rw [crawlFinal]
  simp only [hp]
  rw [crawlLoop, dif_neg (fun hg => absurd hg.2 (Nat.not_lt_zero _))]

/-- When every fetch attempt fails and the budget is positive, the crawl
visits exactly the root, gathers no text and drains the frontier. -/
theorem crawlFinal_allfail_pos (web : Web) (root : Chars) (maxPages : Nat)
    (p : ParseResult) (hp : urlparse root [] = some p)
    (hfetch : ∀ u, fetchHtml web u = none) (hmp : 0 < maxPages) :
    crawlFinal web root maxPages =
      some ⟨[root], [], [], [root], [root]⟩ := by
  have hguard : crawlGuard maxPages (initState root) :=
    ⟨by simp [initState], by simpa [initState] using hmp⟩
  have hstep : step web p.netloc (initState root) = some ⟨[root], [], [], [root], [root]⟩ := by
    have h := step_fail web p.netloc (initState root) root [] rfl
      (List.not_mem_nil root) (hfetch root)
    simpa [initState] using h
  have hN : crawlN web p.netloc maxPages 2 (initState root) =
      some ⟨[root], [], [], [root], [root]⟩ := by
    rw [crawlN_succ_of_guard web p.netloc maxPages 1 (initState root) hguard]
    simp only [hstep]
    rw [crawlN, if_neg (fun hg => hg.1 rfl)]
  rw [crawlFinal_eq_crawlN web root maxPages p 2 hp (by rw [hN]; exact fun hg => hg.1 rfl)]
  exact hN

/-! The claims. -/

/-- C1: Scope containment — in every reachable state of every run
(including prefixes of runs later aborted by an uncaught `ValueError`),
every URL in the fetch trace, and every URL still pending in the frontier,
has a netloc equal, by exact string equality, to the netloc of the root
URL.  Since a URL is passed to `requests.get` only when it is at the front
of the frontier of the state that begins its iteration, this covers every
URL ever fetched by any run, aborted ones included. -/
theorem scrape_scope_containment (web : Web) (root : Chars) (maxPages : Nat)
    (p : ParseResult) (n : Nat) (s : CrawlState) (u : Chars)
    (hp : urlparse root [] = some p)
    (hn : crawlN web p.netloc maxPages n (initState root) = some s)
    (hu : u ∈ s.fetched ∨ u ∈ s.to_visit) :
    ∃ q, urlparse u [] = some q ∧ q.netloc = p.netloc := by
  obtain ⟨hfs, _, _, _, _, hnet, _⟩ :=
    crawlN_good web p.netloc maxPages n (initState root) s
      (initState_good root maxPages p hp) hn
  rcases hu with hu | hu
  · exact hnet u (Or.inl (by rw [← hfs]; exact hu))
  · exact hnet u (Or.inr hu)

theorem scrape_scope_containment_witness :
    (∃ q, urlparse aboutU [] = some q ∧ q.netloc = "example.com".toList) ∧
    (∃ q, urlparse fragU [] = some q ∧ q.netloc = "example.com".toList) :=
  ⟨scrape_scope_containment exWeb rootU 10
      ⟨"https".toList, "example.com".toList, "/".toList, [], [], []⟩ 2
      ⟨[rootU, aboutU], [fragU], ["Home text".toList, "About text".toList],
       [rootU, aboutU], [rootU, aboutU, fragU]⟩ aboutU
      (by decide) (by decide) (Or.inl (by decide)),
   scrape_scope_containment exWeb rootU 10
      ⟨"https".toList, "example.com".toList, "/".toList, [], [], []⟩ 2
      ⟨[rootU, aboutU], [fragU], ["Home text".toList, "About text".toList],
       [rootU, aboutU], [rootU, aboutU, fragU]⟩ fragU
      (by decide) (by decide) (Or.inr (by decide))⟩

/-- C2: Budget respected — at every point of the loop the visited set has at
most `maxPages` elements, and whenever `scrape_public_site` returns a
corpus, its length is at most `MAX_SITE_CHARS` (5000), even when truncation
cuts the last page's text mid-stream. -/
theorem scrape_budget_respected (web : Web) (root : Chars) (maxPages : Nat) :
    (∀ (p : ParseResult) (n : Nat) (s : CrawlState), urlparse root [] = some p →
      crawlN web p.netloc maxPages n (initState root) = some s →
      s.seen.length ≤ maxPages) ∧
    (∀ out, scrape_public_site web root maxPages = some out →
      out.length ≤ MAX_SITE_CHARS) := by
  constructor
  · intro p n s hp hn
    exact (crawlN_good web p.netloc maxPages n (initState root) s
      (initState_good root maxPages p hp) hn).2.1
  · intro out hout
    rw [scrape_public_site] at hout
    rcases hcf : crawlFinal web root maxPages with _ | s
    · rw [hcf] at hout; cases hout
    · rw [hcf] at hout
      simp only [Option.map_some'] at hout
      cases hout
      rw [corpusOf]
      exact List.length_take_le _ _

theorem scrape_budget_respected_witness :
    (⟨[rootU, aboutU, fragU], [], ["Home text".toList, "About text".toList],
      [rootU, aboutU, fragU], [rootU, aboutU, fragU]⟩ : CrawlState).seen.length ≤ 10 ∧
    ("Home text \nAbout text".toList).length ≤ MAX_SITE_CHARS :=
  ⟨(scrape_budget_respected exWeb rootU 10).1
      ⟨"https".toList, "example.com".toList, "/".toList, [], [], []⟩ 3
      ⟨[rootU, aboutU, fragU], [], ["Home text".toList, "About text".toList],
       [rootU, aboutU, fragU], [rootU, aboutU, fragU]⟩ (by decide) (by decide),
   (scrape_budget_respected exWeb rootU 10).2 ("Home text \nAbout text".toList)
     (by rw [scrape_public_site, crawlFinal_eq_crawlN exWeb rootU 10
          ⟨"https".toList, "example.com".toList, "/".toList, [], [], []⟩ 3
          (by decide) (by decide)]
         decide)⟩

/-- C3: No duplicate fetches — within one invocation, the trace of URLs
passed to the fetcher has no duplicates, a URL enters the visited set at
most once, and the two agree. -/
theorem scrape_no_duplicate_fetches (web : Web) (root : Chars) (maxPages : Nat)
    (p : ParseResult) (n : Nat) (s : CrawlState) (hp : urlparse root [] = some p)
    (hn : crawlN web p.netloc maxPages n (initState root) = some s) :
    s.fetched.Nodup ∧ s.seen.Nodup ∧ s.fetched = s.seen := by
  have hg := crawlN_good web p.netloc maxPages n (initState root) s
    (initState_good root maxPages p hp) hn
  exact ⟨by rw [hg.1]; exact hg.2.2.1, hg.2.2.1, hg.1⟩

theorem scrape_no_duplicate_fetches_witness :
    ([rootU, aboutU, fragU] : List Chars).Nodup ∧
    ([rootU, aboutU, fragU] : List Chars).Nodup ∧
    ([rootU, aboutU, fragU] : List Chars) = [rootU, aboutU, fragU] :=
  scrape_no_duplicate_fetches exWeb rootU 10
    ⟨"https".toList, "example.com".toList, "/".toList, [], [], []⟩ 3
    ⟨[rootU, aboutU, fragU], [], ["Home text".toList, "About text".toList],
     [rootU, aboutU, fragU], [rootU, aboutU, fragU]⟩ (by decide) (by decide)

/-- C4: A failed fetch attempt contributes no text and no links, yet the
URL is marked visited (line 61, before the attempt) and recorded as
fetched, so the failure consumes one unit of the page budget; and a URL
already in the visited set is skipped without any fetch, so it is never
retried within the same crawl. -/
theorem step_failed_fetch_consumes_budget (web : Web) (domain : Chars)
    (s : CrawlState) (url : Chars) (rest : List Chars)
    (hv : s.to_visit = url :: rest) :
    (url ∉ s.seen → fetchHtml web url = none →
      step web domain s =
        some { seen := s.seen ++ [url], to_visit := rest, texts := s.texts,
               fetched := s.fetched ++ [url], inserted := s.inserted }) ∧
    (url ∈ s.seen → step web domain s = some { s with to_visit := rest }) :=
  ⟨fun hmem hf => step_fail web domain s url rest hv hmem hf,
   fun hmem => step_skip web domain s url rest hv hmem⟩

theorem step_failed_fetch_consumes_budget_witness :
    step allErrWeb ("example.com".toList) (initState rootU) =
      some ⟨[rootU], [], [], [rootU], [rootU]⟩ ∧
    step allErrWeb ("example.com".toList)
        ⟨[aboutU], [aboutU], [], [aboutU], [aboutU]⟩ =
      some ⟨[aboutU], [], [], [aboutU], [aboutU]⟩ :=
  ⟨(step_failed_fetch_consumes_budget allErrWeb ("example.com".toList)
      (initState rootU) rootU [] rfl).1 (List.not_mem_nil rootU) rfl,
   (step_failed_fetch_consumes_budget allErrWeb ("example.com".toList)
      ⟨[aboutU], [aboutU], [], [aboutU], [aboutU]⟩ aboutU [] rfl).2
     (List.mem_singleton.mpr rfl)⟩

/-- C5 (amended): the crawl loop always terminates, but in one of two ways:
either it exits normally, exactly when the frontier is empty or the visited
set has reached `maxPages`, or it aborts with an uncaught `ValueError`
raised while resolving a malformed href (modelled as `none`).  In both
cases the result equals a finite bounded iteration. -/
theorem crawl_terminates_or_raises (web : Web) (root : Chars) (maxPages : Nat)
    (p : ParseResult) (hp : urlparse root [] = some p) :
    ∃ (n : Nat) (f : Option CrawlState),
      crawlN web p.netloc maxPages n (initState root) = f ∧
      crawlFinal web root maxPages = f ∧
      (f = none ∨ ∃ s, f = some s ∧
        (s.to_visit = [] ∨ s.seen.length = maxPages)) := by
  obtain ⟨n, hdone⟩ := crawl_reaches_done' web p.netloc maxPages (initState root)
  refine ⟨n, crawlN web p.netloc maxPages n (initState root), rfl,
    crawlFinal_eq_crawlN web root maxPages p n hp hdone, ?_⟩
  rcases hf : crawlN web p.netloc maxPages n (initState root) with _ | s
  · exact Or.inl rfl
  · refine Or.inr ⟨s, rfl, ?_⟩
    rw [hf] at hdone
    have hg := crawlN_good web p.netloc maxPages n (initState root) s
      (initState_good root maxPages p hp) hf
    by_cases htv : s.to_visit = []
    · exact Or.inl htv
    · refine Or.inr ?_
      have hlen := hg.2.1
      have hnl : ¬ s.seen.length < maxPages := fun hlt => hdone ⟨htv, hlt⟩
      omega

theorem crawl_terminates_or_raises_witness :
    ∃ (n : Nat) (f : Option CrawlState),
      crawlN exWeb ("example.com".toList) 10 n (initState rootU) = f ∧
      crawlFinal exWeb rootU 10 = f ∧
      (f = none ∨ ∃ s, f = some s ∧
        (s.to_visit = [] ∨ s.seen.length = 10)) :=
  crawl_terminates_or_raises exWeb rootU 10
    ⟨"https".toList, "example.com".toList, "/".toList, [], [], []⟩ (by decide)

/-- C5 counterexample: on a page whose href has a mismatched IPv6 bracket,
the crawl aborts with an uncaught `ValueError` from `urljoin` — the loop
does not exit through the budget or empty-frontier condition, and the
caller receives no corpus. -/
theorem crawl_exit_condition_counterexample :
    crawlFinal badHrefWeb rootU 10 = none ∧
    ¬ ∃ s, crawlFinal badHrefWeb rootU 10 = some s ∧
      (s.to_visit = [] ∨ s.seen.length = 10) := by
  have h : crawlFinal badHrefWeb rootU 10 = none := by
    rw [crawlFinal_eq_crawlN badHrefWeb rootU 10
      ⟨"https".toList, "example.com".toList, "/".toList, [], [], []⟩ 1
      (by decide) (by decide)]
    decide
  refine ⟨h, ?_⟩
  rintro ⟨s, hs, -⟩
  rw [h] at hs
  cases hs

/-- C6 (amended): an invalid root URL does not, in general, fail the whole
operation upfront.  Only a root that `urlparse` itself rejects (line 53,
mismatched IPv6 bracket) aborts before any fetch, for every possible web.
A root from which no HTTP request can be constructed but which `urlparse`
accepts (e.g. one with no scheme) is swallowed by the per-page handler like
any other fetch error: when every fetch raises, the caller receives the
empty corpus, not a rejection. -/
theorem invalid_root_handling (web : Web) (root : Chars) (maxPages : Nat) :
    (urlparse root [] = none → scrape_public_site web root maxPages = none) ∧
    ((∃ p, urlparse root [] = some p) → (∀ u, web u = FetchOutcome.err) →
      scrape_public_site web root maxPages = some []) := by
  constructor
  · intro hp
    rw [scrape_public_site, crawlFinal]
    simp [hp]
  · rintro ⟨p, hp⟩ hall
    have hfetch : ∀ u, fetchHtml web u = none := by
      intro u
      rw [fetchHtml, hall u]
    rcases Nat.eq_zero_or_pos maxPages with hmp | hmp
    · subst hmp
      rw [scrape_public_site, crawlFinal_zero web root p hp]
      simp [corpusOf, initState, joinWith]
    · rw [scrape_public_site, crawlFinal_allfail_pos web root maxPages p hp hfetch hmp]
      simp [corpusOf, joinWith]

theorem invalid_root_handling_witness :
    scrape_public_site allErrWeb badRoot 10 = none ∧
    scrape_public_site allErrWeb noSchemeRoot 10 = some [] :=
  ⟨(invalid_root_handling allErrWeb badRoot 10).1 (by decide),
   (invalid_root_handling allErrWeb noSchemeRoot 10).2
     ⟨⟨[], [], "not a url".toList, [], [], []⟩, by decide⟩ (fun _ => rfl)⟩

/-- C6 counterexample: for the root `"not a url"` — from which no HTTP
request can be constructed, so every fetch attempt raises — the crawl does
not fail upfront: the root is fetched (consuming one budget unit) and the
caller receives an empty corpus rather than a rejection. -/
theorem invalid_root_counterexample :
    crawlFinal allErrWeb noSchemeRoot 10 =
      some ⟨[noSchemeRoot], [], [], [noSchemeRoot], [noSchemeRoot]⟩ ∧
    scrape_public_site allErrWeb noSchemeRoot 10 = some [] := by
  have h : crawlFinal allErrWeb noSchemeRoot 10 =
      some ⟨[noSchemeRoot], [], [], [noSchemeRoot], [noSchemeRoot]⟩ :=
    crawlFinal_allfail_pos allErrWeb noSchemeRoot 10
      ⟨[], [], "not a url".toList, [], [], []⟩ (by decide) (fun _ => rfl) (by decide)
  refine ⟨h, ?_⟩
  rw [scrape_public_site, h]
  simp [corpusOf, joinWith]

/-- C7 (amended): every link considered for the frontier is the resolution
`urljoin(pageUrl, href)` of an href found on the fetched page; and a
fragment-only href does NOT resolve to the base page string itself, but to
the base with the fragment appended: whenever the base re-serialises to
itself (no existing fragment), `urljoin u ('#'++frag) = u ++ '#'++frag`. -/
theorem link_resolution_fragment :
    (∀ (domain pageUrl : Chars) (seen : List Chars) (hrefs tv tv' : List Chars),
      resolveLinks domain pageUrl seen hrefs tv = some tv' →
      ∀ l, l ∈ tv' → l ∉ tv → ∃ h, h ∈ hrefs ∧ urljoin pageUrl h = some l) ∧
    (∀ (u frag : Chars) (b : ParseResult), urlparse u [] = some b →
      b.scheme ∈ uses_relative → b.scheme ∈ uses_netloc →
      noControl frag → frag ≠ [] →
      urlunparse ⟨b.scheme, b.netloc, b.path, b.params, b.query, []⟩ = u →
      urljoin u ('#' :: frag) = some (u ++ '#' :: frag)) := by
  constructor
  · intro domain pageUrl seen hrefs tv tv' hr l hl hnot
    rcases (resolveLinks_spec domain pageUrl seen hrefs tv tv' hr).2.1 l hl with
      hold | ⟨_, _, hh⟩
    · exact absurd hold hnot
    · exact hh
  · intro u frag b hb hrel hnet hf hfrag hrt
    rw [urljoin_hash u frag b hb hrel hnet hf hfrag, hrt]

theorem link_resolution_fragment_witness :
    (∃ h, h ∈ ["/about".toList, "#top".toList, "https://external.com/x".toList] ∧
      urljoin rootU h = some aboutU) ∧
    urljoin ("https://example.com/page".toList) ('#' :: "top".toList) =
      some ("https://example.com/page".toList ++ '#' :: "top".toList) :=
  ⟨link_resolution_fragment.1 ("example.com".toList) rootU [rootU]
      ["/about".toList, "#top".toList, "https://external.com/x".toList]
      [] [aboutU, fragU] (by decide) aboutU (by decide) (by decide),
   link_resolution_fragment.2 ("https://example.com/page".toList) ("top".toList)
      ⟨"https".toList, "example.com".toList, "/page".toList, [], [], []⟩
      (by decide) (by decide) (by decide) (by decide) (by decide) (by decide)⟩

/-- C7 counterexample: the fragment-only href `#top` on the page
`https://example.com/page` resolves to `https://example.com/page#top`,
which is not equal, as a string, to the base page itself. -/
theorem fragment_resolution_counterexample :
    urljoin ("https://example.com/page".toList) ("#top".toList) =
      some ("https://example.com/page#top".toList) ∧
    urljoin ("https://example.com/page".toList) ("#top".toList) ≠
      some ("https://example.com/page".toList) := by
  constructor
  · decide
  · decide

/-- C8: Breadth-first order — the frontier is popped at the front and
appended at the back, so at every point of the loop the ghost trace of all
URLs ever inserted into the frontier equals the fetch trace followed by the
still-pending frontier: URLs are fetched in exactly insertion order. -/
theorem frontier_fifo_order (web : Web) (root : Chars) (maxPages : Nat)
    (p : ParseResult) (n : Nat) (s : CrawlState) (hp : urlparse root [] = some p)
    (hn : crawlN web p.netloc maxPages n (initState root) = some s) :
    s.inserted = s.fetched ++ s.to_visit :=
  (crawlN_good web p.netloc maxPages n (initState root) s
    (initState_good root maxPages p hp) hn).2.2.2.2.2.2

theorem frontier_fifo_order_witness :
    ([rootU, aboutU, fragU] : List Chars) = [rootU, aboutU] ++ [fragU] :=
  frontier_fifo_order exWeb rootU 10
    ⟨"https".toList, "example.com".toList, "/".toList, [], [], []⟩ 2
    ⟨[rootU, aboutU], [fragU], ["Home text".toList, "About text".toList],
     [rootU, aboutU], [rootU, aboutU, fragU]⟩ (by decide) (by decide)

/-- C9: Graceful degradation — when every fetch attempt fails, the crawl
returns the empty corpus (length 0) without raising; with a positive budget
the frontier is drained and only the root was attempted. -/
theorem graceful_degradation (web : Web) (root : Chars) (maxPages : Nat)
    (p : ParseResult) (hp : urlparse root [] = some p)
    (hfail : ∀ u, fetchHtml web u = none) :
    scrape_public_site web root maxPages = some [] ∧
    (0 < maxPages → crawlFinal web root maxPages =
      some ⟨[root], [], [], [root], [root]⟩) := by
  rcases Nat.eq_zero_or_pos maxPages with hmp | hmp
  · subst hmp
    constructor
    · rw [scrape_public_site, crawlFinal_zero web root p hp]
      simp [corpusOf, initState, joinWith]
    · intro h
      exact absurd h (by omega)
  · have h := crawlFinal_allfail_pos web root maxPages p hp hfail hmp
    constructor
    · rw [scrape_public_site, h]
      simp [corpusOf, joinWith]
    · intro _
      exact h

theorem graceful_degradation_witness :
    scrape_public_site allErrWeb rootU 10 = some [] ∧
    (0 < 10 → crawlFinal allErrWeb rootU 10 =
      some ⟨[rootU], [], [], [rootU], [rootU]⟩) :=
  graceful_degradation allErrWeb rootU 10
    ⟨"https".toList, "example.com".toList, "/".toList, [], [], []⟩
    (by decide) (fun _ => rfl)

/-- C10: in every reachable state of the loop the frontier holds no
duplicates and no URL already in the visited set, so the defensive skip
branch of lines 59–60 is never taken: the URL at the front of the frontier
is never already seen. -/
theorem frontier_no_duplicates (web : Web) (root : Chars) (maxPages : Nat)
    (p : ParseResult) (n : Nat) (s : CrawlState) (hp : urlparse root [] = some p)
    (hn : crawlN web p.netloc maxPages n (initState root) = some s) :
    s.to_visit.Nodup ∧ (∀ u, u ∈ s.to_visit → u ∉ s.seen) ∧
    (∀ url rest, s.to_visit = url :: rest → url ∉ s.seen) := by
  have hg := crawlN_good web p.netloc maxPages n (initState root) s
    (initState_good root maxPages p hp) hn
  refine ⟨hg.2.2.2.1, hg.2.2.2.2.1, ?_⟩
  intro url rest hv
  exact hg.2.2.2.2.1 url (by rw [hv]; exact List.mem_cons_self _ _)

theorem frontier_no_duplicates_witness :
    ([aboutU, fragU] : List Chars).Nodup ∧
    (∀ u, u ∈ ([aboutU, fragU] : List Chars) → u ∉ ([rootU] : List Chars)) ∧
    (∀ url rest, ([aboutU, fragU] : List Chars) = url :: rest →
      url ∉ ([rootU] : List Chars)) :=
  frontier_no_duplicates exWeb rootU 10
    ⟨"https".toList, "example.com".toList, "/".toList, [], [], []⟩ 1
    ⟨[rootU], [aboutU, fragU], ["Home text".toList],
     [rootU], [rootU, aboutU, fragU]⟩ (by decide) (by decide)
